import Mathlib

/-!
Shallow embedding of `generate.py` (GitHub Trends static-site generator).

Python dictionaries holding repository metadata are modelled by the `Record`
structure; a key that may be absent is an `Option` field.  `repo[k]` (which
raises `KeyError` when `k` is absent) is modelled by `pyIndex`, returning
`Except PyErr`; `repo.get(k, d)` is modelled by `Option.getD`.
Python's `list.sort(key=..., reverse=True)` / `sorted(..., reverse=True)`
(Timsort: stable, descending) is modelled by the stable insertion sort
`sortKeyDesc`; `sorted(list_of_strings)` by `sortLex` over the code-point
order.  Insertion-ordered Python dicts (here: `language_stats`) are modelled
by association lists updated in place (`bumpStat`).
CPython float formatting `f"{num/den:.1f}"` is modelled exactly: the true
division rounds the rational num/den to the nearest IEEE-754 binary64 value
(53-bit significand, round half to even), and `.1f` rounds the exact value
of that double to one decimal, again half to even (`fmt1f`).
-/

deriving instance DecidableEq for Except

/-- Python runtime errors that the generator can raise: only `KeyError`
(from `d[k]` on a missing key) occurs in the modelled code. -/
inductive PyErr where
  | keyError : String → PyErr
deriving DecidableEq, Repr

/-- The `owner` sub-dictionary of a record. -/
structure Owner where
  login : String
  avatar_url : String
deriving DecidableEq, Repr

/-- One repository record, as consumed by `generate.py`.  Fields the code
reads with `repo[k]` or `repo.get(k, ...)` are `Option`s so that absent keys
are representable (`none` = key absent or value `None`). -/
structure Record where
  id : Option Int
  full_name : Option String
  name : Option String
  description : Option String
  html_url : Option String
  stargazers_count : Option Nat
  language : Option String
  forks_count : Option Nat
  open_issues_count : Option Nat
  topics : Option (List String)
  created_at : Option String
  updated_at : Option String
  owner : Option Owner
deriving DecidableEq, Repr

/-- Model of Python `d[k]`: the value when the key is present, otherwise a
`KeyError` naming the key. -/
def pyIndex (o : Option α) (key : String) : Except PyErr α :=
  match o with
  | some v => .ok v
  | none => .error (.keyError key)

/-- Model of `repo.get("language") or "Unknown"` (both `None` and the empty
string are falsy in Python). -/
def displayLanguage (r : Record) : String :=
  match r.language with
  | none => "Unknown"
  | some s => if s = "" then "Unknown" else s

/-- Model of `repo.get("stargazers_count", 0)`. -/
def starsOf (r : Record) : Nat :=
  r.stargazers_count.getD 0

/-! ## slugify

Python source:
`re.sub(r'[^a-z0-9]+', '-', text.lower()).strip('-')`. -/

/-- Characters the regex class `[a-z0-9]` accepts. -/
def isSlugChar (c : Char) : Bool :=
  (97 ≤ c.toNat && c.toNat ≤ 122) || (48 ≤ c.toNat && c.toNat ≤ 57)

/-- Model of Python `str.lower` on one character (ASCII case mapping; the
inputs the generator feeds it — `full_name`s and language names — are
ASCII). -/
def pyLowerChar (c : Char) : Char :=
  if 65 ≤ c.toNat && c.toNat ≤ 90 then Char.ofNat (c.toNat + 32) else c

/-- Model of `re.sub(r'[^a-z0-9]+', '-', s)`: every maximal run of
characters outside `[a-z0-9]` becomes a single `'-'`.  The boolean state
records whether the previous character belonged to such a run. -/
def subNonAlnum : Bool → List Char → List Char
  | _, [] => []
  | inRun, c :: rest =>
    if isSlugChar c then c :: subNonAlnum false rest
    else if inRun then subNonAlnum true rest
    else '-' :: subNonAlnum true rest

/-- Model of Python `s.strip('-')`: drop leading and trailing hyphens. -/
def stripHyphens (l : List Char) : List Char :=
  ((l.dropWhile (· == '-')).reverse.dropWhile (· == '-')).reverse

/-- Model of `slugify` from `generate.py`. -/
def slugify (s : String) : String :=
  ⟨stripHyphens (subNonAlnum false (s.data.map pyLowerChar))⟩

/-! ## format_number

Python source:
if `num >= 1000000` then `f"{num / 1000000:.1f}m"`, elif `num >= 1000` then
`f"{num / 1000:.1f}k"`, else `str(num)`.  CPython's `/` produces the IEEE
double nearest to the exact quotient (ties to even over the 53-bit
significand) and `.1f` rounds the exact value of that double to one
decimal, ties to even. -/

/-- Round the exact quotient `a / b` (with `b > 0`) to the nearest natural,
ties to even. -/
def roundHalfEvenDiv (a b : Nat) : Nat :=
  let n := a / b
  let r := a % b
  if 2 * r < b then n
  else if b < 2 * r then n + 1
  else if n % 2 = 0 then n else n + 1

/-- Largest `e` with `2 ^ e ≤ n`, fuelled so that the recursion is
structural (`fuel ≥ n` suffices). -/
def log2fuel : Nat → Nat → Nat
  | 0, _ => 0
  | fuel + 1, n => if 2 ≤ n then log2fuel fuel (n / 2) + 1 else 0

/-- Floor of the base-2 logarithm (0 for inputs below 2). -/
def log2floor (n : Nat) : Nat := log2fuel n n

/-- The IEEE-754 binary64 value nearest to `num / den`, for
`1 ≤ den ≤ num` (the only regime `format_number` divides in), returned as
an exact pair `(numerator, denominator)`.  `e` is the binade exponent and
the 53-bit significand is rounded half to even; a carry into `2 ^ 53`
moves the value up one binade. -/
def ratToDouble (num den : Nat) : Nat × Nat :=
  let e := log2floor (num / den)
  let m := roundHalfEvenDiv (num * 2 ^ 52) (den * 2 ^ e)
  if m = 2 ^ 53 then (2 ^ (e + 1), 1)
  else (m * 2 ^ e, 2 ^ 52)

/-- Model of CPython `f"{num / den:.1f}"` for `1 ≤ den ≤ num`: the double
nearest `num / den`, rounded (exactly, half to even) to one decimal and
printed with one digit after the point. -/
def fmt1f (num den : Nat) : String :=
  let d := ratToDouble num den
  let t := roundHalfEvenDiv (d.1 * 10) d.2
  toString (t / 10) ++ "." ++ toString (t % 10)

/-- Model of `format_number` from `generate.py`. -/
def format_number (num : Nat) : String :=
  if num ≥ 1000000 then fmt1f num 1000000 ++ "m"
  else if num ≥ 1000 then fmt1f num 1000 ++ "k"
  else toString num

/-! ## Stable sorts

`list.sort(key=lambda x: ..., reverse=True)` and
`sorted(..., key=..., reverse=True)` in CPython are stable descending
sorts: elements are ordered by decreasing key and elements with equal keys
keep their original relative order.  `sortKeyDesc` is a stable insertion
sort with exactly that behaviour.  `sorted(languages)` on strings is the
ascending code-point lexicographic sort `sortLex`. -/

/-- Insert `a` in front of the first element whose key does not exceed
`a`'s: earlier-input elements with equal keys end up first. -/
def insertKeyDesc (key : α → Nat) (a : α) : List α → List α
  | [] => [a]
  | b :: bs => if key b ≤ key a then a :: b :: bs else b :: insertKeyDesc key a bs

/-- Stable sort by decreasing `key` (model of CPython's
`sort(key=key, reverse=True)`). -/
def sortKeyDesc (key : α → Nat) : List α → List α
  | [] => []
  | a :: l => insertKeyDesc key a (sortKeyDesc key l)

/-- Code-point lexicographic comparison of strings, as CPython compares
`str` values. -/
def lexLe : List Char → List Char → Bool
  | [], _ => true
  | _ :: _, [] => false
  | a :: as, b :: bs =>
    if a.toNat < b.toNat then true
    else if b.toNat < a.toNat then false
    else lexLe as bs

/-- Insertion step of the ascending string sort. -/
def insertLex (a : String) : List String → List String
  | [] => [a]
  | b :: bs => if lexLe a.data b.data then a :: b :: bs else b :: insertLex a bs

/-- Model of Python `sorted(strings)`. -/
def sortLex : List String → List String
  | [] => []
  | a :: l => insertLex a (sortLex l)

/-! ## Aggregate language statistics (from `main`)

Python source:
`language_stats = {}`; for each repo,
`lang = repo.get("language") or "Unknown"`;
`language_stats[lang] = language_stats.get(lang, 0) + 1`;
`languages = list(language_stats.keys())`. -/

/-- One update of the insertion-ordered `language_stats` dict. -/
def bumpStat : List (String × Nat) → String → List (String × Nat)
  | [], k => [(k, 1)]
  | (k', c) :: rest, k =>
    if k' = k then (k', c + 1) :: rest else (k', c) :: bumpStat rest k

/-- The `language_stats` dict built by `main`, as an insertion-ordered
association list. -/
def languageStats (repos : List Record) : List (String × Nat) :=
  repos.foldl (fun d r => bumpStat d (displayLanguage r)) []

/-- `languages = list(language_stats.keys())` in `main`. -/
def languagesOf (repos : List Record) : List String :=
  (languageStats repos).map (·.1)

/-- Model of Python `language_stats.get(lang, 0)`. -/
def lookupStat (d : List (String × Nat)) (k : String) : Nat :=
  match d with
  | [] => 0
  | (k', c) :: rest => if k' = k then c else lookupStat rest k

/-! ## Page assembly

The HTML template text around the bound data is constant; the embedding
keeps every piece of *data* a page binds, in the order the source binds
it, and reproduces verbatim the fragments the claims are about (the topics
blocks).  Dictionary accesses keep Python's evaluation order, so the
functions fail with exactly the `KeyError` the source would raise. -/

/-- The topics block of a repo card on the index page and on a category
page.  Python builds the same string in both places:
empty topics give no block at all, otherwise the first four topics become
spans. -/
def topicsBlockCard (topics : List String) : String :=
  if topics.isEmpty then ""
  else
    "<div class=\"topics\">"
      ++ String.join ((topics.take 4).map
          (fun t => "<span class=\"topic\">" ++ t ++ "</span>"))
      ++ "</div>"

/-- The topics block of a repo detail page: empty topics give no block,
otherwise every topic becomes a span (no truncation; only the wrapper's
inline style differs from the card variant). -/
def topicsBlockDetail (topics : List String) : String :=
  if topics.isEmpty then ""
  else
    "<div class=\"topics\" style=\"margin-top: 16px;\">"
      ++ String.join (topics.map
          (fun t => "<span class=\"topic\">" ++ t ++ "</span>"))
      ++ "</div>"

/-- The data a repo card binds (index page and category pages bind the
same fields). -/
structure RepoCard where
  slug : String
  full_name : String
  stars : String
  description : String
  language : String
  forks : String
  issues : String
  topicsHtml : String
deriving DecidableEq, Repr

/-- One repo card of the index page's Trending section (the loop body of
`for repo in repos[:20]` in `generate_index_page`): `repo["full_name"]` is
a mandatory access, everything else goes through `.get` or an
or-fallback. -/
def indexRepoCard (repo : Record) : Except PyErr RepoCard := do
  let fn ← pyIndex repo.full_name "full_name"
  pure {
    slug := slugify fn
    full_name := fn
    stars := format_number (repo.stargazers_count.getD 0)
    description := match repo.description with
      | none => "No description available"
      | some d => if d = "" then "No description available" else d
    language := displayLanguage repo
    forks := format_number (repo.forks_count.getD 0)
    issues := format_number (repo.open_issues_count.getD 0)
    topicsHtml := topicsBlockCard (repo.topics.getD []) }

/-- Builds the cards of a list of records in order, propagating the first
`KeyError` as Python's loop would. -/
def repoCards : List Record → Except PyErr (List RepoCard)
  | [] => .ok []
  | r :: rest => do
    let c ← indexRepoCard r
    let cs ← repoCards rest
    pure (c :: cs)

/-- The Browse-by-Language grid of the index page:
`for lang, count in sorted(language_stats.items(), key=lambda x: x[1],
reverse=True)` — count-descending, ties in dict insertion order — with
each entry's slug. -/
def browseByLanguage (stats : List (String × Nat)) : List (String × Nat × String) :=
  (sortKeyDesc (fun p => p.2) stats).map (fun p => (p.1, p.2, slugify p.1))

/-- The data `generate_index_page` binds. -/
structure IndexPage where
  repoCount : String
  totalStars : String
  totalForks : String
  languageCount : Nat
  browse : List (String × Nat × String)
  trending : List RepoCard
deriving DecidableEq, Repr

/-- Model of `generate_index_page(repos, language_stats)`: hero stats
(all through `format_number` except the raw language count), the
Browse-by-Language grid, and the Trending cards for `repos[:20]`. -/
def generate_index_page (repos : List Record) (stats : List (String × Nat)) :
    Except PyErr IndexPage := do
  let trending ← repoCards (repos.take 20)
  pure {
    repoCount := format_number repos.length
    totalStars := format_number (repos.map (fun r => r.stargazers_count.getD 0)).sum
    totalForks := format_number (repos.map (fun r => r.forks_count.getD 0)).sum
    languageCount := stats.length
    browse := browseByLanguage stats
    trending := trending }

/-- The member list of a category page:
`lang_repos = [r for r in repos if r.get("language") == lang]` followed by
`lang_repos.sort(key=lambda x: x.get("stargazers_count", 0),
reverse=True)`.  Note: the filter compares the *raw* `language` value, not
the display language. -/
def lang_repos (lang : String) (repos : List Record) : List Record :=
  sortKeyDesc starsOf (repos.filter (fun r => r.language == some lang))

/-- The data `generate_category_page` binds. -/
structure CategoryPage where
  lang : String
  memberCount : Nat
  cards : List RepoCard
deriving DecidableEq, Repr

/-- Model of `generate_category_page(lang, repos, all_languages)`: the
sorted member list rendered as cards (the card loop accesses
`repo["full_name"]` and builds the same topics block as the index
cards). -/
def generate_category_page (lang : String) (repos : List Record) :
    Except PyErr CategoryPage := do
  let members := lang_repos lang repos
  let cards ← repoCards members
  pure { lang := lang, memberCount := members.length, cards := cards }

/-- The similar-repos filter of `generate_repo_page`:
`[r for r in all_repos if r.get("language") == lang and r["id"] !=
repo["id"]]`.  Python's `and` short-circuits, so `r["id"]` and
`repo["id"]` are only evaluated for records passing the language test; a
`KeyError` there aborts the comprehension. -/
def similarFilter (repo : Record) (lang : String) :
    List Record → Except PyErr (List Record)
  | [] => .ok []
  | r :: rest =>
    if r.language == some lang then do
      let rid ← pyIndex r.id "id"
      let pid ← pyIndex repo.id "id"
      let tail ← similarFilter repo lang rest
      if rid ≠ pid then pure (r :: tail) else pure tail
    else
      similarFilter repo lang rest

/-- `similar_repos` of `generate_repo_page`: the filtered list sorted by
stars descending (stable).  The detail page then renders
`similar_repos[:4]`. -/
def similar_repos (repo : Record) (all_repos : List Record) :
    Except PyErr (List Record) := do
  let filtered ← similarFilter repo (displayLanguage repo) all_repos
  pure (sortKeyDesc starsOf filtered)

/-- The data a card in the Similar Repositories section binds. -/
structure SimilarCard where
  slug : String
  full_name : String
  stars : String
  description : String
  language : String
deriving DecidableEq, Repr

/-- One similar-repo card: `slugify(similar["full_name"])` is a mandatory
access; the description fallback here is the shorter "No description". -/
def similarCard (r : Record) : Except PyErr SimilarCard := do
  let fn ← pyIndex r.full_name "full_name"
  pure {
    slug := slugify fn
    full_name := fn
    stars := format_number (r.stargazers_count.getD 0)
    description := match r.description with
      | none => "No description"
      | some d => if d = "" then "No description" else d
    language := displayLanguage r }

/-- Card loop over `similar_repos[:4]`. -/
def similarCards : List Record → Except PyErr (List SimilarCard)
  | [] => .ok []
  | r :: rest => do
    let c ← similarCard r
    let cs ← similarCards rest
    pure (c :: cs)

/-- The data `generate_repo_page` binds. -/
structure RepoPage where
  slug : String
  lang : String
  langSlug : String
  name : String
  full_name : String
  description : String
  ownerLogin : String
  htmlUrl : String
  createdDate : String
  updatedDate : String
  stars : String
  forks : String
  issues : String
  topicsHtml : String
  similar : List SimilarCard
deriving DecidableEq, Repr

/-- Model of `generate_repo_page(repo, all_repos)`, keeping the source's
access order: `repo["full_name"]` (for the slug) comes first, then the
similar-repos comprehension, then the remaining mandatory accesses
(`name`, `owner`, `html_url`), then the `similar_repos[:4]` card loop. -/
def generate_repo_page (repo : Record) (all_repos : List Record) :
    Except PyErr RepoPage := do
  let lang := displayLanguage repo
  let fn ← pyIndex repo.full_name "full_name"
  let slug := slugify fn
  let langSlug := slugify lang
  let sims ← similar_repos repo all_repos
  let name ← pyIndex repo.name "name"
  let owner ← pyIndex repo.owner "owner"
  let htmlUrl ← pyIndex repo.html_url "html_url"
  let simCards ← similarCards (sims.take 4)
  pure {
    slug := slug
    lang := lang
    langSlug := langSlug
    name := name
    full_name := fn
    description := match repo.description with
      | none => "No description available"
      | some d => if d = "" then "No description available" else d
    ownerLogin := owner.login
    htmlUrl := htmlUrl
    createdDate := (repo.created_at.getD "").take 10
    updatedDate := (repo.updated_at.getD "").take 10
    stars := format_number (repo.stargazers_count.getD 0)
    forks := format_number (repo.forks_count.getD 0)
    issues := format_number (repo.open_issues_count.getD 0)
    topicsHtml := topicsBlockDetail (repo.topics.getD [])
    similar := simCards }

/-- One entry of the categories index page (`generate_categories_index_page`),
in the order `for lang in sorted(languages)`: the language, its
`language_stats.get(lang, 0)` count, its slug, and the formatted star
count of `max(lang_repos, key=stars)` over the (unsorted) raw-language
filter — `"0"` when that filter is empty. -/
def catIndexEntry (stats : List (String × Nat)) (repos : List Record)
    (lang : String) : String × Nat × String × String :=
  let members := repos.filter (fun r => r.language == some lang)
  let topStars :=
    if members.isEmpty then "0"
    else format_number ((members.map starsOf).foldl max 0)
  (lang, lookupStat stats lang, slugify lang, topStars)

/-- Model of `generate_categories_index_page(languages, language_stats,
repos)`: the entries in lexicographically sorted language order. -/
def generate_categories_index_page (languages : List String)
    (stats : List (String × Nat)) (repos : List Record) :
    List (String × Nat × String × String) :=
  (sortLex languages).map (catIndexEntry stats repos)

/-! ## Sitemap and the output manifest of `main` -/

/-- One `<url>` entry of `generate_sitemap`, exactly as the source
formats it. -/
def urlEntry (loc lastmod changefreq priority : String) : String :=
  "  <url>\n    <loc>" ++ loc ++ "</loc>\n    <lastmod>" ++ lastmod
    ++ "</lastmod>\n    <changefreq>" ++ changefreq
    ++ "</changefreq>\n    <priority>" ++ priority ++ "</priority>\n  </url>"

/-- The per-record address components of the sitemap: each repo
contributes `{base_url}/repos/{slugify(repo["full_name"])}.html`
(a `KeyError` aborts the loop as in Python). -/
def sitemapRepoAddrs (base_url : String) :
    List Record → Except PyErr (List String)
  | [] => .ok []
  | r :: rest => do
    let fn ← pyIndex r.full_name "full_name"
    let tail ← sitemapRepoAddrs base_url rest
    pure ((base_url ++ "/repos/" ++ slugify fn ++ ".html") :: tail)

/-- The ordered list of `(address, changefreq, priority)` triples of
`generate_sitemap(base_url, repos, languages)`: home, language index, one
entry per language, one entry per record. -/
def sitemapEntries (base_url : String) (repos : List Record)
    (languages : List String) :
    Except PyErr (List (String × String × String)) := do
  let repoAddrs ← sitemapRepoAddrs base_url repos
  pure ([(base_url ++ "/index.html", "daily", "1.0"),
         (base_url ++ "/categories/index.html", "daily", "0.9")]
    ++ languages.map (fun lang =>
         (base_url ++ "/categories/" ++ slugify lang ++ ".html", "daily", "0.8"))
    ++ repoAddrs.map (fun a => (a, "weekly", "0.7")))

/-- Model of `generate_sitemap`: the full XML string, with `now` (the
generation date) passed explicitly. -/
def generate_sitemap (base_url : String) (now : String)
    (repos : List Record) (languages : List String) :
    Except PyErr String := do
  let entries ← sitemapEntries base_url repos languages
  pure ("<?xml version=\"1.0\" encoding=\"UTF-8\"?>\n<urlset xmlns=\"http://www.sitemaps.org/schemas/sitemap/0.9\">\n"
    ++ String.intercalate "\n"
        (entries.map (fun e => urlEntry e.1 now e.2.1 e.2.2))
    ++ "\n</urlset>")

/-- The per-record output paths of `main`'s repo-page loop:
`repos/{slugify(repo["full_name"])}.html`. -/
def repoPagePaths : List Record → Except PyErr (List String)
  | [] => .ok []
  | r :: rest => do
    let fn ← pyIndex r.full_name "full_name"
    let tail ← repoPagePaths rest
    pure (("repos/" ++ slugify fn ++ ".html") :: tail)

/-- The output paths (relative to the output directory) of every HTML
page `main` writes, in write order: `index.html`,
`categories/index.html`, one `categories/{slug}.html` per language in
`languages`, one `repos/{slug}.html` per record (the separately written
`sitemap.xml` is not a page). -/
def pagePaths (repos : List Record) : Except PyErr (List String) := do
  let rp ← repoPagePaths repos
  pure (["index.html", "categories/index.html"]
    ++ (languagesOf repos).map
        (fun lang => "categories/" ++ slugify lang ++ ".html")
    ++ rp)

/-- A fully populated owner used by the concrete examples. -/
def exOwner : Owner := ⟨"johndoe", "https://avatars.githubusercontent.com/u/1"⟩

/-- A fully populated record (modelled on the first mock record of
`get_mock_data`), parameterised by id, full name, language and stars. -/
def exRecord (i : Int) (fn : String) (lang : Option String) (st : Nat) : Record :=
  { id := some i
    full_name := some fn
    name := some "awesome-ai-assistant"
    description := some "A powerful AI assistant framework."
    html_url := some "https://github.com/johndoe/awesome-ai-assistant"
    stargazers_count := some st
    language := lang
    forks_count := some 890
    open_issues_count := some 45
    topics := some ["ai", "llm", "rag", "assistant", "openai"]
    created_at := some "2025-01-15T10:00:00Z"
    updated_at := some "2025-01-28T15:30:00Z"
    owner := some exOwner }

/-! ## Lemmas -/

theorem displayLanguage_ne_empty (r : Record) : displayLanguage r ≠ "" := by
  unfold displayLanguage
  cases r.language with
  | none => simp
  | some s =>
    by_cases h : s = "" <;> simp [h]

/-! ## Properties of the stable descending sort -/

theorem mem_insertKeyDesc (key : α → Nat) (a x : α) (l : List α) :
    x ∈ insertKeyDesc key a l ↔ x = a ∨ x ∈ l := by
  induction l with
  | nil => simp [insertKeyDesc]
  | cons b bs ih =>
    unfold insertKeyDesc
    by_cases h : key b ≤ key a
    · simp [h]
    · simp [h, ih]
      tauto

theorem mem_sortKeyDesc (key : α → Nat) (x : α) (l : List α) :
    x ∈ sortKeyDesc key l ↔ x ∈ l := by
  induction l with
  | nil => simp [sortKeyDesc]
  | cons a l ih =>
    unfold sortKeyDesc
    rw [mem_insertKeyDesc]
    simp [ih]

theorem perm_insertKeyDesc (key : α → Nat) (a : α) (l : List α) :
    List.Perm (insertKeyDesc key a l) (a :: l) := by
  induction l with
  | nil => simp [insertKeyDesc]
  | cons b bs ih =>
    unfold insertKeyDesc
    by_cases h : key b ≤ key a
    · rw [if_pos h]
    · rw [if_neg h]
      exact (ih.cons b).trans (List.Perm.swap a b bs)

theorem perm_sortKeyDesc (key : α → Nat) (l : List α) :
    List.Perm (sortKeyDesc key l) l := by
  induction l with
  | nil => simp [sortKeyDesc]
  | cons a l ih =>
    unfold sortKeyDesc
    exact (perm_insertKeyDesc key a (sortKeyDesc key l)).trans (ih.cons a)

theorem pairwise_insertKeyDesc (key : α → Nat) (a : α) (l : List α)
    (h : l.Pairwise (fun x y => key y ≤ key x)) :
    (insertKeyDesc key a l).Pairwise (fun x y => key y ≤ key x) := by
  induction l with
  | nil => simp [insertKeyDesc]
  | cons b bs ih =>
    unfold insertKeyDesc
    rcases List.pairwise_cons.mp h with ⟨hb, hbs⟩
    by_cases hle : key b ≤ key a
    · rw [if_pos hle]
      refine List.pairwise_cons.mpr ⟨?_, h⟩
      intro y hy
      rcases List.mem_cons.mp hy with rfl | hy2
      · exact hle
      · exact le_trans (hb y hy2) hle
    · rw [if_neg hle]
      refine List.pairwise_cons.mpr ⟨?_, ih hbs⟩
      intro y hy
      rw [mem_insertKeyDesc] at hy
      rcases hy with rfl | hy2
      · omega
      · exact hb y hy2

theorem pairwise_sortKeyDesc (key : α → Nat) (l : List α) :
    (sortKeyDesc key l).Pairwise (fun x y => key y ≤ key x) := by
  induction l with
  | nil => simp [sortKeyDesc]
  | cons a l ih =>
    unfold sortKeyDesc
    exact pairwise_insertKeyDesc key a _ ih

theorem filter_insertKeyDesc (key : α → Nat) (v : Nat) (a : α) (l : List α)
    (h : l.Pairwise (fun x y => key y ≤ key x)) :
    (insertKeyDesc key a l).filter (fun x => key x = v) =
      if key a = v then a :: l.filter (fun x => key x = v)
      else l.filter (fun x => key x = v) := by
  induction l with
  | nil =>
    by_cases hv : key a = v <;> simp [insertKeyDesc, hv, List.filter]
  | cons b bs ih =>
    rcases List.pairwise_cons.mp h with ⟨hb, hbs⟩
    unfold insertKeyDesc
    by_cases hle : key b ≤ key a
    · rw [if_pos hle, List.filter_cons, List.filter_cons]
      by_cases hv : key a = v
      · rw [if_pos hv]
        simp [hv]
      · rw [if_neg hv]
        simp [hv]
    · have hlt : key a < key b := by omega
      rw [if_neg hle, List.filter_cons, ih hbs, List.filter_cons]
      by_cases hv : key a = v
      · have hbv : ¬ (key b = v) := by omega
        rw [if_pos hv]
        simp [hv, hbv]
      · simp [hv]

theorem filter_sortKeyDesc (key : α → Nat) (v : Nat) (l : List α) :
    (sortKeyDesc key l).filter (fun x => key x = v) =
      l.filter (fun x => key x = v) := by
  induction l with
  | nil => simp [sortKeyDesc]
  | cons a l ih =>
    unfold sortKeyDesc
    rw [filter_insertKeyDesc key v a _ (pairwise_sortKeyDesc key l),
      List.filter_cons]
    by_cases hv : key a = v
    · rw [if_pos hv, ih]
      simp [hv]
    · rw [if_neg hv, ih]
      simp [hv]

/-! ## Properties of the lexicographic sort -/

theorem lexLe_total (a b : List Char) : lexLe a b = true ∨ lexLe b a = true := by
  induction a generalizing b with
  | nil => left; rfl
  | cons x xs ih =>
    cases b with
    | nil => right; rfl
    | cons y ys =>
      unfold lexLe
      by_cases h1 : x.toNat < y.toNat
      · left; simp [h1]
      · by_cases h2 : y.toNat < x.toNat
        · right; simp [h1, h2]
        · rcases ih ys with h | h <;> simp [h1, h2, h]

theorem lexLe_trans (a b c : List Char) (hab : lexLe a b = true)
    (hbc : lexLe b c = true) : lexLe a c = true := by
  induction a generalizing b c with
  | nil => rfl
  | cons x xs ih =>
    cases b with
    | nil => simp [lexLe] at hab
    | cons y ys =>
      cases c with
      | nil => simp [lexLe] at hbc
      | cons z zs =>
        unfold lexLe at hab hbc ⊢
        by_cases h1 : x.toNat < y.toNat
        · by_cases h2 : y.toNat < z.toNat
          · have : x.toNat < z.toNat := by omega
            simp [this]
          · by_cases h3 : z.toNat < y.toNat
            · simp [h2, h3] at hbc
            · have hyz : y.toNat = z.toNat := by omega
              have : x.toNat < z.toNat := by omega
              simp [this]
        · by_cases h1' : y.toNat < x.toNat
          · simp [h1, h1'] at hab
          · have hxy : x.toNat = y.toNat := by omega
            simp [h1, h1'] at hab
            by_cases h2 : y.toNat < z.toNat
            · have : x.toNat < z.toNat := by omega
              simp [this]
            · by_cases h3 : z.toNat < y.toNat
              · simp [h2, h3] at hbc
              · simp [h2, h3] at hbc
                have g1 : ¬ (x.toNat < z.toNat) := by omega
                have g2 : ¬ (z.toNat < x.toNat) := by omega
                simp [g1, g2]
                exact ih ys zs hab hbc

theorem mem_insertLex (a x : String) (l : List String) :
    x ∈ insertLex a l ↔ x = a ∨ x ∈ l := by
  induction l with
  | nil => simp [insertLex]
  | cons b bs ih =>
    unfold insertLex
    by_cases h : lexLe a.data b.data
    · simp [h]
    · simp [h, ih]
      tauto

theorem pairwise_insertLex (a : String) (l : List String)
    (h : l.Pairwise (fun x y => lexLe x.data y.data = true)) :
    (insertLex a l).Pairwise (fun x y => lexLe x.data y.data = true) := by
  induction l with
  | nil => simp [insertLex]
  | cons b bs ih =>
    unfold insertLex
    rcases List.pairwise_cons.mp h with ⟨hb, hbs⟩
    by_cases hle : lexLe a.data b.data
    · rw [if_pos hle]
      refine List.pairwise_cons.mpr ⟨?_, h⟩
      intro y hy
      rcases List.mem_cons.mp hy with rfl | hy2
      · exact hle
      · exact lexLe_trans _ _ _ hle (hb y hy2)
    · rw [if_neg hle]
      refine List.pairwise_cons.mpr ⟨?_, ih hbs⟩
      intro y hy
      rw [mem_insertLex] at hy
      rcases hy with rfl | hy2
      · rcases lexLe_total b.data y.data with hba | hab
        · exact hba
        · exact absurd hab hle
      · exact hb y hy2

theorem pairwise_sortLex (l : List String) :
    (sortLex l).Pairwise (fun x y => lexLe x.data y.data = true) := by
  induction l with
  | nil => simp [sortLex]
  | cons a l ih =>
    unfold sortLex
    exact pairwise_insertLex a _ ih

/-! ## Properties of `language_stats` -/

theorem bumpStat_sum (d : List (String × Nat)) (k : String) :
    ((bumpStat d k).map (·.2)).sum = (d.map (·.2)).sum + 1 := by
  induction d with
  | nil => simp [bumpStat]
  | cons p rest ih =>
    obtain ⟨k', c⟩ := p
    unfold bumpStat
    by_cases h : k' = k
    · rw [if_pos h]
      simp only [List.map_cons, List.sum_cons]
      omega
    · rw [if_neg h]
      simp only [List.map_cons, List.sum_cons, ih]
      omega

theorem bumpStat_keys (d : List (String × Nat)) (k : String) :
    ((bumpStat d k).map (·.1)) =
      if k ∈ d.map (·.1) then d.map (·.1) else d.map (·.1) ++ [k] := by
  induction d with
  | nil => simp [bumpStat]
  | cons p rest ih =>
    obtain ⟨k', c⟩ := p
    unfold bumpStat
    by_cases h : k' = k
    · rw [if_pos h]
      simp [h]
    · rw [if_neg h]
      simp only [List.map_cons]
      rw [ih]
      have hm2 : (k ∈ k' :: rest.map (·.1)) ↔ k ∈ rest.map (·.1) := by
        simp [Ne.symm h]
      by_cases hm : k ∈ rest.map (·.1)
      · rw [if_pos hm, if_pos (hm2.mpr hm)]
      · rw [if_neg hm, if_neg (fun hc => hm (hm2.mp hc))]
        simp

theorem bumpStat_keys_nodup (d : List (String × Nat)) (k : String)
    (h : (d.map (·.1)).Nodup) : ((bumpStat d k).map (·.1)).Nodup := by
  rw [bumpStat_keys]
  by_cases hm : k ∈ d.map (·.1)
  · simpa [hm] using h
  · simp only [hm, if_false]
    simpa [List.nodup_append, hm] using h

theorem mem_bumpStat_keys (d : List (String × Nat)) (k k' : String)
    (h : k' ∈ d.map (·.1)) : k' ∈ (bumpStat d k).map (·.1) := by
  rw [bumpStat_keys]
  by_cases hm : k ∈ d.map (·.1) <;> simp [hm, h]

theorem self_mem_bumpStat_keys (d : List (String × Nat)) (k : String) :
    k ∈ (bumpStat d k).map (·.1) := by
  rw [bumpStat_keys]
  by_cases hm : k ∈ d.map (·.1) <;> simp [hm]

theorem bumpStat_keys_subset (d : List (String × Nat)) (k k' : String)
    (h : k' ∈ (bumpStat d k).map (·.1)) : k' ∈ d.map (·.1) ∨ k' = k := by
  rw [bumpStat_keys] at h
  by_cases hm : k ∈ d.map (·.1)
  · rw [if_pos hm] at h
    exact Or.inl h
  · rw [if_neg hm] at h
    rcases List.mem_append.mp h with h1 | h2
    · exact Or.inl h1
    · right
      simpa using h2

theorem foldl_bump_sum (l : List Record) :
    ∀ d : List (String × Nat),
      (((l.foldl (fun d r => bumpStat d (displayLanguage r)) d)).map (·.2)).sum
        = (d.map (·.2)).sum + l.length := by
  induction l with
  | nil => intro d; simp
  | cons r rest ih =>
    intro d
    simp only [List.foldl_cons, List.length_cons]
    rw [ih, bumpStat_sum]
    omega

/-- The per-language counts of `language_stats` sum to the number of
records. -/
theorem languageStats_sum (repos : List Record) :
    ((languageStats repos).map (·.2)).sum = repos.length := by
  unfold languageStats
  rw [foldl_bump_sum]
  simp

theorem foldl_bump_nodup (l : List Record) :
    ∀ d : List (String × Nat), ((d.map (·.1)).Nodup) →
      (((l.foldl (fun d r => bumpStat d (displayLanguage r)) d)).map (·.1)).Nodup := by
  induction l with
  | nil => intro d h; simpa using h
  | cons r rest ih =>
    intro d h
    simp only [List.foldl_cons]
    exact ih _ (bumpStat_keys_nodup d _ h)

/-- The `languages` list never repeats a language. -/
theorem languages_nodup (repos : List Record) : (languagesOf repos).Nodup := by
  unfold languagesOf languageStats
  exact foldl_bump_nodup repos [] (by simp)

theorem foldl_bump_mem (l : List Record) :
    ∀ d : List (String × Nat), ∀ k,
      k ∈ d.map (·.1) →
      k ∈ ((l.foldl (fun d r => bumpStat d (displayLanguage r)) d)).map (·.1) := by
  induction l with
  | nil => intro d k h; simpa using h
  | cons r rest ih =>
    intro d k h
    simp only [List.foldl_cons]
    exact ih _ k (mem_bumpStat_keys d _ k h)

theorem display_mem_foldl_bump (l : List Record) :
    ∀ d : List (String × Nat), ∀ r ∈ l,
      displayLanguage r ∈
        ((l.foldl (fun d r => bumpStat d (displayLanguage r)) d)).map (·.1) := by
  induction l with
  | nil => intro d r h; simp at h
  | cons x rest ih =>
    intro d r hr
    rcases List.mem_cons.mp hr with rfl | h2
    · simp only [List.foldl_cons]
      exact foldl_bump_mem rest _ _ (self_mem_bumpStat_keys d _)
    · simp only [List.foldl_cons]
      exact ih _ r h2

/-- Every record's display language has an entry in `languages`. -/
theorem display_mem_languages (repos : List Record) (r : Record)
    (h : r ∈ repos) : displayLanguage r ∈ languagesOf repos :=
  display_mem_foldl_bump repos [] r h

theorem foldl_bump_keys_from (l : List Record) :
    ∀ d : List (String × Nat), ∀ k,
      k ∈ ((l.foldl (fun d r => bumpStat d (displayLanguage r)) d)).map (·.1) →
      k ∈ d.map (·.1) ∨ ∃ r ∈ l, displayLanguage r = k := by
  induction l with
  | nil => intro d k h; simpa using h
  | cons x rest ih =>
    intro d k h
    simp only [List.foldl_cons] at h
    rcases ih _ k h with h1 | h2
    · rcases bumpStat_keys_subset d _ k h1 with h3 | h3
      · exact Or.inl h3
      · exact Or.inr ⟨x, by simp, h3.symm⟩
    · obtain ⟨r, hr, hd⟩ := h2
      exact Or.inr ⟨r, by simp [hr], hd⟩

/-- Every entry of `languages` is the display language of some record; in
particular the empty string is never a language key. -/
theorem languages_from_records (repos : List Record) (k : String)
    (h : k ∈ languagesOf repos) : ∃ r ∈ repos, displayLanguage r = k := by
  rcases foldl_bump_keys_from repos [] k h with h1 | h2
  · simp at h1
  · exact h2

theorem empty_not_mem_languages (repos : List Record) :
    "" ∉ languagesOf repos := by
  intro h
  obtain ⟨r, _, hd⟩ := languages_from_records repos "" h
  exact displayLanguage_ne_empty r hd

/-! ## Properties of `slugify` -/

theorem mem_subNonAlnum (l : List Char) :
    ∀ b c, c ∈ subNonAlnum b l → isSlugChar c ∨ c = '-' := by
  induction l with
  | nil => intro b c h; simp [subNonAlnum] at h
  | cons x rest ih =>
    intro b c h
    unfold subNonAlnum at h
    by_cases hx : isSlugChar x
    · rw [if_pos hx] at h
      rcases List.mem_cons.mp h with rfl | h2
      · exact Or.inl hx
      · exact ih false c h2
    · rw [if_neg hx] at h
      cases b with
      | true => exact ih true c (by simpa using h)
      | false =>
        simp only [Bool.false_eq_true, if_false] at h
        rcases List.mem_cons.mp h with rfl | h2
        · exact Or.inr rfl
        · exact ih true c h2

theorem head_subNonAlnum_true (l : List Char) :
    ∀ c, (subNonAlnum true l).head? = some c → isSlugChar c := by
  induction l with
  | nil => intro c h; simp [subNonAlnum] at h
  | cons x rest ih =>
    intro c h
    unfold subNonAlnum at h
    by_cases hx : isSlugChar x
    · rw [if_pos hx] at h
      simp only [List.head?_cons, Option.some.injEq] at h
      rw [← h]; exact hx
    · rw [if_neg hx] at h
      simp only [if_true] at h
      exact ih c h

theorem chain_subNonAlnum (l : List Char) :
    ∀ b, (subNonAlnum b l).Chain' (fun a c => ¬(a = '-' ∧ c = '-')) := by
  induction l with
  | nil => intro b; simp [subNonAlnum]
  | cons x rest ih =>
    intro b
    unfold subNonAlnum
    by_cases hx : isSlugChar x
    · rw [if_pos hx]
      rw [List.chain'_cons']
      constructor
      · intro y hy
        intro hcon
        have : x = '-' := hcon.1
        rw [this] at hx
        simp [isSlugChar] at hx
      · exact ih false
    · rw [if_neg hx]
      cases b with
      | true => simpa using ih true
      | false =>
        simp only [Bool.false_eq_true, if_false]
        rw [List.chain'_cons']
        constructor
        · intro y hy
          intro hcon
          have hs := head_subNonAlnum_true rest y hy
          rw [hcon.2] at hs
          simp [isSlugChar] at hs
        · exact ih true

theorem stripHyphens_prefix_dropWhile (l : List Char) :
    stripHyphens l <+: l.dropWhile (· == '-') := by
  unfold stripHyphens
  set m := l.dropWhile (· == '-') with hm
  have h1 : m.reverse.dropWhile (· == '-') <:+ m.reverse :=
    List.dropWhile_suffix _
  have h2 : (m.reverse.dropWhile (· == '-')).reverse.reverse <:+
      m.reverse := by simpa using h1
  exact List.reverse_suffix.mp h2

theorem stripHyphens_contained (l : List Char) : stripHyphens l <:+: l :=
  List.IsInfix.trans
    (List.IsPrefix.isInfix (stripHyphens_prefix_dropWhile l))
    (List.IsSuffix.isInfix (List.dropWhile_suffix _))

theorem head_dropWhile_ne (p : Char → Bool) (l : List Char) (c : Char)
    (h : (l.dropWhile p).head? = some c) : p c = false := by
  have := List.head?_dropWhile_not p l
  rw [h] at this
  simpa using this

theorem head_stripHyphens (l : List Char) (c : Char)
    (h : (stripHyphens l).head? = some c) : c ≠ '-' := by
  obtain ⟨s, hs⟩ := stripHyphens_prefix_dropWhile l
  have hd : (l.dropWhile (· == '-')).head? = some c := by
    rw [← hs, List.head?_append]
    cases hh : (stripHyphens l).head? with
    | none => rw [hh] at h; exact absurd h (by simp)
    | some d =>
      rw [hh] at h
      simp only [Option.some.injEq] at h
      subst h
      simp [hh]
  have := head_dropWhile_ne _ _ _ hd
  simpa using this

theorem getLast_stripHyphens (l : List Char) (c : Char)
    (h : (stripHyphens l).getLast? = some c) : c ≠ '-' := by
  unfold stripHyphens at h
  rw [List.getLast?_reverse] at h
  have := head_dropWhile_ne _ _ _ h
  simpa using this

theorem subNonAlnum_fix (l : List Char)
    (hmem : ∀ c ∈ l, isSlugChar c ∨ c = '-')
    (hchain : l.Chain' (fun a c => ¬(a = '-' ∧ c = '-'))) :
    subNonAlnum false l = l ∧
      ((∀ c, l.head? = some c → isSlugChar c) → subNonAlnum true l = l) := by
  induction l with
  | nil => simp [subNonAlnum]
  | cons x rest ih =>
    have hmem' : ∀ c ∈ rest, isSlugChar c ∨ c = '-' := by
      intro c hc; exact hmem c (List.mem_cons_of_mem x hc)
    rcases List.chain'_cons'.mp hchain with ⟨hhead, hchain'⟩
    have ihr := ih hmem' hchain'
    by_cases hx : isSlugChar x
    · constructor
      · unfold subNonAlnum
        rw [if_pos hx, ihr.1]
      · intro _
        unfold subNonAlnum
        rw [if_pos hx, ihr.1]
    · have hx' : x = '-' := by
        rcases hmem x (by simp) with h | h
        · exact absurd h hx
        · exact h
      have hresthead : ∀ c, rest.head? = some c → isSlugChar c := by
        intro c hc
        have := hhead c hc
        rcases hmem' c (by
          cases rest with
          | nil => simp at hc
          | cons y ys =>
            simp only [List.head?_cons, Option.some.injEq] at hc
            simp [← hc]) with h | h
        · exact h
        · exact absurd ⟨hx', h⟩ this
      constructor
      · unfold subNonAlnum
        rw [if_neg hx]
        simp only [Bool.false_eq_true, if_false]
        rw [ihr.2 hresthead, hx']
      · intro hc
        have := hc x (by simp)
        exact absurd this hx

theorem dropWhile_eq_self_of_head (p : Char → Bool) (l : List Char)
    (h : ∀ c, l.head? = some c → p c = false) : l.dropWhile p = l := by
  cases l with
  | nil => rfl
  | cons x rest =>
    have := h x (by simp)
    simp [List.dropWhile_cons, this]

theorem stripHyphens_fix (l : List Char)
    (hh : ∀ c, l.head? = some c → c ≠ '-')
    (hl : ∀ c, l.getLast? = some c → c ≠ '-') : stripHyphens l = l := by
  unfold stripHyphens
  have h1 : l.dropWhile (· == '-') = l := by
    apply dropWhile_eq_self_of_head
    intro c hc
    simpa using hh c hc
  rw [h1]
  have h2 : l.reverse.dropWhile (· == '-') = l.reverse := by
    apply dropWhile_eq_self_of_head
    intro c hc
    rw [List.head?_reverse] at hc
    simpa using hl c hc
  rw [h2, List.reverse_reverse]

theorem pyLowerChar_fix (c : Char) (h : isSlugChar c ∨ c = '-') :
    pyLowerChar c = c := by
  unfold pyLowerChar
  rcases h with h | h
  · simp only [isSlugChar, Bool.or_eq_true, Bool.and_eq_true,
      decide_eq_true_eq] at h
    have : ¬(65 ≤ c.toNat && c.toNat ≤ 90) = true := by
      simp only [Bool.and_eq_true, decide_eq_true_eq]
      omega
    simp [this]
  · rw [h]
    decide

/-- Every character of a slug is a lowercase ASCII letter, a digit, or a
hyphen. -/
theorem slugify_chars (s : String) :
    ∀ c ∈ (slugify s).data, isSlugChar c ∨ c = '-' := by
  intro c hc
  have h1 : c ∈ subNonAlnum false (s.data.map pyLowerChar) :=
    (stripHyphens_contained _).subset hc
  exact mem_subNonAlnum _ false c h1

/-- A slug never starts with a hyphen. -/
theorem slugify_head (s : String) (c : Char)
    (h : (slugify s).data.head? = some c) : c ≠ '-' :=
  head_stripHyphens _ c h

/-- A slug never ends with a hyphen. -/
theorem slugify_last (s : String) (c : Char)
    (h : (slugify s).data.getLast? = some c) : c ≠ '-' :=
  getLast_stripHyphens _ c h

/-- `slugify` is idempotent. -/
theorem slugify_idem (s : String) : slugify (slugify s) = slugify s := by
  have hmem : ∀ c ∈ (slugify s).data, isSlugChar c ∨ c = '-' :=
    slugify_chars s
  have hchain : (slugify s).data.Chain' (fun a c => ¬(a = '-' ∧ c = '-')) :=
    List.Chain'.infix (chain_subNonAlnum _ false) (stripHyphens_contained _)
  have hlow : (slugify s).data.map pyLowerChar = (slugify s).data := by
    have heq : (slugify s).data.map pyLowerChar = (slugify s).data.map id :=
      List.map_congr_left (fun c hc => pyLowerChar_fix c (hmem c hc))
    simpa using heq
  show (⟨stripHyphens (subNonAlnum false ((slugify s).data.map pyLowerChar))⟩ : String)
    = slugify s
  rw [hlow, (subNonAlnum_fix _ hmem hchain).1,
    stripHyphens_fix _ (slugify_head s) (slugify_last s)]


/-! ## Evaluation of the fallible functions on well-formed records -/

theorem similarFilter_ok (repo : Record) (lang : String)
    (all : List Record) (hrepo : repo.id.isSome)
    (hall : ∀ r ∈ all, r.id.isSome) :
    similarFilter repo lang all =
      .ok (all.filter (fun r => r.language == some lang && r.id != repo.id)) := by
  induction all with
  | nil => rfl
  | cons r rest ih =>
    have hr := hall r (by simp)
    have hrest : ∀ x ∈ rest, x.id.isSome := by
      intro x hx; exact hall x (List.mem_cons_of_mem r hx)
    obtain ⟨a, ha⟩ := Option.isSome_iff_exists.mp hr
    obtain ⟨b, hb⟩ := Option.isSome_iff_exists.mp hrepo
    unfold similarFilter
    rw [List.filter_cons]
    by_cases hl : (r.language == some lang) = true
    · rw [if_pos hl]
      by_cases hne : a = b
      · have hcond : (r.language == some lang && r.id != repo.id) = false := by
          rw [ha, hb]
          simp [hl, hne]
        rw [hcond]
        simp only [Bool.false_eq_true, if_false]
        rw [ha, hb, ih hrest]
        show (if a ≠ b then Except.ok (r :: _) else Except.ok _) = _
        rw [if_neg (by simpa using hne), hb]
      · have hcond : (r.language == some lang && r.id != repo.id) = true := by
          rw [ha, hb]
          simp [hl, hne]
        rw [hcond]
        simp only [if_true]
        rw [ha, hb, ih hrest]
        show (if a ≠ b then Except.ok (r :: _) else Except.ok _) = _
        rw [if_pos (by simpa using hne), hb]
    · rw [if_neg hl]
      have hcond : (r.language == some lang && r.id != repo.id) = false := by
        simp only [Bool.and_eq_false_iff]
        left
        simpa using hl
      rw [hcond]
      simp only [Bool.false_eq_true, if_false]
      exact ih hrest

theorem repoPagePaths_ok (repos : List Record)
    (h : ∀ r ∈ repos, r.full_name.isSome) :
    repoPagePaths repos =
      .ok (repos.map (fun r =>
        "repos/" ++ slugify (r.full_name.getD "") ++ ".html")) := by
  induction repos with
  | nil => rfl
  | cons r rest ih =>
    obtain ⟨fn, hfn⟩ := Option.isSome_iff_exists.mp (h r (by simp))
    have hrest : ∀ x ∈ rest, x.full_name.isSome := by
      intro x hx; exact h x (List.mem_cons_of_mem r hx)
    unfold repoPagePaths
    rw [List.map_cons, hfn, ih hrest]
    rfl

theorem sitemapRepoAddrs_ok (base_url : String) (repos : List Record)
    (h : ∀ r ∈ repos, r.full_name.isSome) :
    sitemapRepoAddrs base_url repos =
      .ok (repos.map (fun r =>
        base_url ++ "/repos/" ++ slugify (r.full_name.getD "") ++ ".html")) := by
  induction repos with
  | nil => rfl
  | cons r rest ih =>
    obtain ⟨fn, hfn⟩ := Option.isSome_iff_exists.mp (h r (by simp))
    have hrest : ∀ x ∈ rest, x.full_name.isSome := by
      intro x hx; exact h x (List.mem_cons_of_mem r hx)
    unfold sitemapRepoAddrs
    rw [List.map_cons, hfn, ih hrest]
    rfl

/-! ## The claims -/

/-- C1: for every record set whose records carry a `full_name`, the
addresses emitted by `generate_sitemap` (home, language index, one per
distinct language, one per record) are in 1:1 correspondence with the
output paths of the page-generation step of `main`: the sitemap's address
list is exactly the page path list prefixed with the base URL, entry by
entry. -/
theorem c1_sitemap_page_correspondence (base_url : String)
    (repos : List Record) (h : ∀ r ∈ repos, r.full_name.isSome) :
    ∃ paths entries,
      pagePaths repos = .ok paths ∧
      sitemapEntries base_url repos (languagesOf repos) = .ok entries ∧
      entries.map (·.1) = paths.map (fun p => base_url ++ "/" ++ p) := by
  refine ⟨["index.html", "categories/index.html"]
    ++ (languagesOf repos).map
        (fun lang => "categories/" ++ slugify lang ++ ".html")
    ++ repos.map (fun r => "repos/" ++ slugify (r.full_name.getD "") ++ ".html"),
    [(base_url ++ "/index.html", "daily", "1.0"),
     (base_url ++ "/categories/index.html", "daily", "0.9")]
    ++ (languagesOf repos).map (fun lang =>
         (base_url ++ "/categories/" ++ slugify lang ++ ".html", "daily", "0.8"))
    ++ (repos.map (fun r =>
         base_url ++ "/repos/" ++ slugify (r.full_name.getD "") ++ ".html")).map
           (fun a => (a, "weekly", "0.7")), ?_, ?_, ?_⟩
  · unfold pagePaths
    rw [repoPagePaths_ok repos h]
    rfl
  · unfold sitemapEntries
    rw [sitemapRepoAddrs_ok base_url repos h]
    rfl
  · simp only [List.map_append, List.map_map, List.map_cons, List.map_nil]
    have e1 : base_url ++ "/" ++ "index.html" = base_url ++ "/index.html" := by
      rw [String.append_assoc]
      rfl
    have e2 : base_url ++ "/" ++ "categories/index.html"
        = base_url ++ "/categories/index.html" := by
      rw [String.append_assoc]
      rfl
    rw [e1, e2]
    congr 1
    · congr 1
      apply List.map_congr_left
      intro lang _
      show base_url ++ "/categories/" ++ slugify lang ++ ".html"
        = base_url ++ "/" ++ ("categories/" ++ slugify lang ++ ".html")
      rw [String.append_assoc, String.append_assoc, String.append_assoc,
        String.append_assoc]
      rfl
    · apply List.map_congr_left
      intro r _
      show base_url ++ "/repos/" ++ slugify (r.full_name.getD "") ++ ".html"
        = base_url ++ "/" ++ ("repos/" ++ slugify (r.full_name.getD "") ++ ".html")
      rw [String.append_assoc, String.append_assoc, String.append_assoc,
        String.append_assoc]
      rfl

/-- C1 witness: the correspondence instantiated on a concrete two-record,
two-language set. -/
theorem c1_witness :
    (∀ r ∈ [exRecord 1 "johndoe/awesome-ai-assistant" (some "Python") 12500,
            exRecord 2 "rustacean/rust-wasm-runtime" (some "Rust") 9800],
        r.full_name.isSome) ∧
    ∃ paths entries,
      pagePaths [exRecord 1 "johndoe/awesome-ai-assistant" (some "Python") 12500,
                 exRecord 2 "rustacean/rust-wasm-runtime" (some "Rust") 9800] = .ok paths ∧
      sitemapEntries "https://yourusername.github.io/github-trends"
          [exRecord 1 "johndoe/awesome-ai-assistant" (some "Python") 12500,
           exRecord 2 "rustacean/rust-wasm-runtime" (some "Rust") 9800]
          (languagesOf [exRecord 1 "johndoe/awesome-ai-assistant" (some "Python") 12500,
                        exRecord 2 "rustacean/rust-wasm-runtime" (some "Rust") 9800]) = .ok entries ∧
      entries.map (·.1) = paths.map
        (fun p => "https://yourusername.github.io/github-trends" ++ "/" ++ p) :=
  ⟨by decide,
   c1_sitemap_page_correspondence "https://yourusername.github.io/github-trends"
     [exRecord 1 "johndoe/awesome-ai-assistant" (some "Python") 12500,
      exRecord 2 "rustacean/rust-wasm-runtime" (some "Rust") 9800] (by decide)⟩

/-- C2 counterexample: a record whose `language` field is null gets
display language `"Unknown"` and makes `"Unknown"` a language-stats key,
yet the `"Unknown"` category page's member list — which filters on the
*raw* `language` value — is empty, so the record appears in no group's
member list and the groups do not partition the record set. -/
theorem c2_counterexample :
    displayLanguage (exRecord 1 "a/b" none 10) = "Unknown" ∧
    languagesOf [exRecord 1 "a/b" none 10] = ["Unknown"] ∧
    lang_repos "Unknown" [exRecord 1 "a/b" none 10] = [] ∧
    exRecord 1 "a/b" none 10 ∉ lang_repos "Unknown" [exRecord 1 "a/b" none 10] := by
  decide

/-- C2 (amended): the per-language counts of `language_stats` sum to the
total number of records and the language keys are distinct; a record
belongs to the member list of group `lang` exactly when its raw
`language` field is `lang`, so a record with a present, non-empty
language belongs to exactly one group (which is a stats key), while a
record with an absent or empty language — although counted under
`"Unknown"` — appears in no group's member list. -/
theorem c2_amended_partition (repos : List Record) :
    ((languageStats repos).map (·.2)).sum = repos.length ∧
    (languagesOf repos).Nodup ∧
    (∀ r ∈ repos, ∀ lang, r ∈ lang_repos lang repos ↔ r.language = some lang) ∧
    (∀ r ∈ repos, ∀ L, r.language = some L → L ≠ "" → L ∈ languagesOf repos) ∧
    (∀ r ∈ repos, (r.language = none ∨ r.language = some "") →
      ∀ lang ∈ languagesOf repos, r ∉ lang_repos lang repos) := by
  refine ⟨languageStats_sum repos, languages_nodup repos, ?_, ?_, ?_⟩
  · intro r hr lang
    unfold lang_repos
    rw [mem_sortKeyDesc, List.mem_filter]
    constructor
    · intro ⟨_, hcond⟩
      simpa using hcond
    · intro hlang
      exact ⟨hr, by simpa using hlang⟩
  · intro r hr L hL hne
    have : displayLanguage r = L := by
      unfold displayLanguage
      rw [hL]
      simp [hne]
    rw [← this]
    exact display_mem_languages repos r hr
  · intro r hr hraw lang hlang hmem
    unfold lang_repos at hmem
    rw [mem_sortKeyDesc, List.mem_filter] at hmem
    have hcond : r.language = some lang := by simpa using hmem.2
    rcases hraw with h | h
    · rw [h] at hcond
      exact absurd hcond (by simp)
    · rw [h] at hcond
      have : lang = "" := by simpa using hcond.symm
      rw [this] at hlang
      exact empty_not_mem_languages repos hlang

/-- C2 witness: the amended statement instantiated on a concrete
two-record set. -/
theorem c2_witness :
    ((languageStats [exRecord 1 "a/p" (some "Python") 5,
                     exRecord 2 "a/r" (some "Rust") 9]).map (·.2)).sum = 2 ∧
    (exRecord 1 "a/p" (some "Python") 5 ∈
        lang_repos "Python" [exRecord 1 "a/p" (some "Python") 5,
                             exRecord 2 "a/r" (some "Rust") 9] ↔
      (exRecord 1 "a/p" (some "Python") 5).language = some "Python") ∧
    "Python" ∈ languagesOf [exRecord 1 "a/p" (some "Python") 5,
                            exRecord 2 "a/r" (some "Rust") 9] :=
  ⟨(c2_amended_partition _).1,
   (c2_amended_partition _).2.2.1 (exRecord 1 "a/p" (some "Python") 5)
     (by decide) "Python",
   (c2_amended_partition _).2.2.2.1 (exRecord 1 "a/p" (some "Python") 5)
     (by decide) "Python" (by decide) (by decide)⟩

/-- C3: for a record with an id, among records with ids, the rendered
similar set `similar_repos[:4]` has at most 4 members, contains no record
with the target's id, every member shares the target's display language,
it is ordered by stars descending, and equal-star records of the full
sorted list keep the original input order of the filtered input
(stability). -/
theorem c3_similar_set (repo : Record) (all_repos : List Record)
    (hrepo : repo.id.isSome) (hall : ∀ r ∈ all_repos, r.id.isSome) :
    ∃ sims, similar_repos repo all_repos = .ok sims ∧
      (sims.take 4).length ≤ 4 ∧
      (∀ m ∈ sims.take 4, m.id ≠ repo.id) ∧
      (∀ m ∈ sims.take 4, displayLanguage m = displayLanguage repo) ∧
      (sims.take 4).Pairwise (fun a b => starsOf b ≤ starsOf a) ∧
      (∀ v, sims.filter (fun r => starsOf r = v) =
        (all_repos.filter (fun r =>
          r.language == some (displayLanguage repo) && r.id != repo.id)).filter
          (fun r => starsOf r = v)) := by
  refine ⟨sortKeyDesc starsOf (all_repos.filter (fun r =>
    r.language == some (displayLanguage repo) && r.id != repo.id)), ?_, ?_, ?_, ?_, ?_, ?_⟩
  · unfold similar_repos
    rw [similarFilter_ok repo (displayLanguage repo) all_repos hrepo hall]
    rfl
  · exact List.length_take_le 4 _
  · intro m hm
    have hmem : m ∈ sortKeyDesc starsOf _ := List.take_subset 4 _ hm
    rw [mem_sortKeyDesc, List.mem_filter] at hmem
    have := hmem.2
    simp only [Bool.and_eq_true, bne_iff_ne] at this
    exact this.2
  · intro m hm
    have hmem : m ∈ sortKeyDesc starsOf _ := List.take_subset 4 _ hm
    rw [mem_sortKeyDesc, List.mem_filter] at hmem
    have := hmem.2
    simp only [Bool.and_eq_true, beq_iff_eq] at this
    have hml : m.language = some (displayLanguage repo) := this.1
    unfold displayLanguage
    rw [hml]
    simp only [displayLanguage_ne_empty repo, if_false]
    rfl
  · exact (pairwise_sortKeyDesc starsOf _).sublist (List.take_sublist 4 _)
  · intro v
    exact filter_sortKeyDesc starsOf v _

/-- C3 witness: the similar-set properties instantiated on a concrete
four-record set (three Python records, one Rust). -/
theorem c3_witness :
    ∃ sims, similar_repos (exRecord 1 "a/p1" (some "Python") 5)
        [exRecord 1 "a/p1" (some "Python") 5,
         exRecord 2 "a/p2" (some "Python") 9,
         exRecord 3 "a/p3" (some "Python") 9,
         exRecord 4 "a/rs" (some "Rust") 7] = .ok sims ∧
      (sims.take 4).length ≤ 4 ∧
      (∀ m ∈ sims.take 4, m.id ≠ (exRecord 1 "a/p1" (some "Python") 5).id) ∧
      (∀ m ∈ sims.take 4,
        displayLanguage m = displayLanguage (exRecord 1 "a/p1" (some "Python") 5)) ∧
      (sims.take 4).Pairwise (fun a b => starsOf b ≤ starsOf a) ∧
      (∀ v, sims.filter (fun r => starsOf r = v) =
        (([exRecord 1 "a/p1" (some "Python") 5,
           exRecord 2 "a/p2" (some "Python") 9,
           exRecord 3 "a/p3" (some "Python") 9,
           exRecord 4 "a/rs" (some "Rust") 7]).filter (fun r =>
          r.language == some (displayLanguage (exRecord 1 "a/p1" (some "Python") 5))
            && r.id != (exRecord 1 "a/p1" (some "Python") 5).id)).filter
          (fun r => starsOf r = v)) :=
  c3_similar_set (exRecord 1 "a/p1" (some "Python") 5)
    [exRecord 1 "a/p1" (some "Python") 5,
     exRecord 2 "a/p2" (some "Python") 9,
     exRecord 3 "a/p3" (some "Python") 9,
     exRecord 4 "a/rs" (some "Rust") 7] (by decide) (by decide)

/-- C4 counterexample: the claim's example `formatted(1250000) == "1.3m"`
fails on the code: `1250000 / 1000000` is exactly `1.25` as a double and
CPython's `.1f` rounds ties to even, so `format_number` yields
`"1.2m"`. -/
theorem c4_counterexample :
    format_number 1250000 = "1.2m" ∧ "1.2m" ≠ "1.3m" := by decide

/-- C4 (amended): `format_number` renders `n` as its decimal string below
1000, as the double `n / 1000` rounded (ties to even) to one decimal with
suffix `"k"` up to a million, and as the double `n / 1000000` likewise
with suffix `"m"` from a million on; the claim's boundary examples hold
except `1250000`, which formats to `"1.2m"` (round half to even), not
`"1.3m"`. -/
theorem c4_amended_formatting :
    (∀ n : Nat, n < 1000 → format_number n = toString n) ∧
    (∀ n : Nat, 1000 ≤ n → n < 1000000 → format_number n = fmt1f n 1000 ++ "k") ∧
    (∀ n : Nat, 1000000 ≤ n → format_number n = fmt1f n 1000000 ++ "m") ∧
    format_number 950 = "950" ∧ format_number 999 = "999" ∧
    format_number 1000 = "1.0k" ∧ format_number 12500 = "12.5k" ∧
    format_number 999999 = "1000.0k" ∧ format_number 1000000 = "1.0m" ∧
    format_number 1250000 = "1.2m" := by
  refine ⟨?_, ?_, ?_, by decide, by decide, by decide, by decide, by decide,
    by decide, by decide⟩
  · intro n h
    unfold format_number
    rw [if_neg (by omega), if_neg (by omega)]
  · intro n h1 h2
    unfold format_number
    rw [if_neg (by omega), if_pos (by omega)]
  · intro n h
    unfold format_number
    rw [if_pos (by omega)]

/-- C4 witness: the amended branch statements instantiated at concrete
inputs. -/
theorem c4_witness :
    format_number 7 = toString 7 ∧
    format_number 2150 = fmt1f 2150 1000 ++ "k" ∧
    format_number 3500000 = fmt1f 3500000 1000000 ++ "m" :=
  ⟨c4_amended_formatting.1 7 (by decide),
   c4_amended_formatting.2.1 2150 (by decide) (by decide),
   c4_amended_formatting.2.2.1 3500000 (by decide)⟩

/-- C5: every slug consists only of lowercase ASCII alphanumerics and
hyphens, never starts or ends with a hyphen, and `slugify` is
idempotent. -/
theorem c5_slug_properties (s : String) :
    (∀ c ∈ (slugify s).data, isSlugChar c ∨ c = '-') ∧
    (∀ c, (slugify s).data.head? = some c → c ≠ '-') ∧
    (∀ c, (slugify s).data.getLast? = some c → c ≠ '-') ∧
    slugify (slugify s) = slugify s :=
  ⟨slugify_chars s, slugify_head s, slugify_last s, slugify_idem s⟩

/-- C5 witness: the slug properties instantiated at a concrete, messy
string. -/
theorem c5_witness :
    (∀ c ∈ (slugify "  Hello, World!! ").data, isSlugChar c ∨ c = '-') ∧
    (∀ c, (slugify "  Hello, World!! ").data.head? = some c → c ≠ '-') ∧
    (∀ c, (slugify "  Hello, World!! ").data.getLast? = some c → c ≠ '-') ∧
    slugify (slugify "  Hello, World!! ") = slugify "  Hello, World!! " :=
  c5_slug_properties "  Hello, World!! "

/-- C6: the generator performs no slug-collision check.  Two distinct
records whose `full_name`s collide under `slugify` both map to the output
path `repos/john-doe.html`; `main`'s page-path list contains the
duplicate and generation succeeds, silently overwriting the first page —
no fatal error is signalled. -/
theorem c6_slug_collision_unchecked :
    slugify "John/Doe" = "john-doe" ∧
    slugify "john.doe" = "john-doe" ∧
    pagePaths [exRecord 1 "John/Doe" (some "Python") 5,
               exRecord 2 "john.doe" (some "Python") 3] =
      .ok ["index.html", "categories/index.html", "categories/python.html",
           "repos/john-doe.html", "repos/john-doe.html"] ∧
    ¬ (["index.html", "categories/index.html", "categories/python.html",
        "repos/john-doe.html", "repos/john-doe.html"] : List String).Nodup := by
  decide

/-- C7 counterexample: a record lacking `id` (with a null language, so the
similar-repos filter never compares ids) generates its detail page with no
error at all — page generation signals nothing, let alone a fatal
`MalformedRecordError` identifying the record's position. -/
theorem c7_counterexample :
    (exRecord 1 "x/y" none 5).id = some 1 ∧
    ({ exRecord 1 "x/y" none 5 with id := none } : Record).id = none ∧
    (generate_repo_page { exRecord 1 "x/y" none 5 with id := none }
      [{ exRecord 1 "x/y" none 5 with id := none }]).isOk = true := by
  decide

/-- C7 (amended): a record lacking `full_name` makes `generate_repo_page`
fail with an uncaught `KeyError` naming the missing key (but not the
record's position); the run aborts rather than skipping the record. -/
theorem c7_amended_keyerror (repo : Record) (all_repos : List Record)
    (h : repo.full_name = none) :
    generate_repo_page repo all_repos = .error (.keyError "full_name") := by
  unfold generate_repo_page
  rw [h]
  rfl

/-- C7 witness: the amended statement instantiated at a concrete record
with no `full_name`. -/
theorem c7_witness :
    generate_repo_page { exRecord 1 "x/y" (some "Python") 5 with full_name := none }
      [exRecord 2 "a/b" (some "Python") 7] = .error (.keyError "full_name") :=
  c7_amended_keyerror _ _ (by decide)

/-- C8: on the empty record set nothing fails: `language_stats`,
`languages`, the Browse-by-Language grid and the Trending list are all
empty, the home page's hero stats are all zero ("0" repositories, "0"
total stars, "0" total forks, 0 languages), the categories index is
empty, and the run's page paths are just the two fixed index pages. -/
theorem c8_empty_record_set :
    languageStats [] = [] ∧
    languagesOf [] = [] ∧
    generate_index_page [] (languageStats []) =
      .ok { repoCount := "0", totalStars := "0", totalForks := "0",
            languageCount := 0, browse := [], trending := [] } ∧
    generate_categories_index_page (languagesOf []) (languageStats []) [] = [] ∧
    pagePaths [] = .ok ["index.html", "categories/index.html"] := by
  decide

/-- C9: the home page's Browse-by-Language grid is ordered by
per-language count descending with ties kept in dict insertion order
(first occurrence), whereas the categories index page is ordered
lexicographically; on a concrete record set (two Python records and one
Ada record) the two pages list the languages in different orders. -/
theorem c9_two_orderings :
    (∀ stats : List (String × Nat),
      (browseByLanguage stats).Pairwise (fun a b => b.2.1 ≤ a.2.1)) ∧
    (∀ stats : List (String × Nat), ∀ v,
      (sortKeyDesc (fun p => p.2) stats).filter (fun p => p.2 = v) =
        stats.filter (fun p => p.2 = v)) ∧
    (∀ languages stats repos,
      (generate_categories_index_page languages stats repos).map (·.1) =
        sortLex languages) ∧
    (∀ languages : List String,
      (sortLex languages).Pairwise (fun a b => lexLe a.data b.data = true)) ∧
    (browseByLanguage (languageStats
        [exRecord 1 "a/p1" (some "Python") 5,
         exRecord 2 "a/p2" (some "Python") 9,
         exRecord 3 "a/ad" (some "Ada") 7])).map (·.1) = ["Python", "Ada"] ∧
    (generate_categories_index_page
        (languagesOf [exRecord 1 "a/p1" (some "Python") 5,
                      exRecord 2 "a/p2" (some "Python") 9,
                      exRecord 3 "a/ad" (some "Ada") 7])
        (languageStats [exRecord 1 "a/p1" (some "Python") 5,
                        exRecord 2 "a/p2" (some "Python") 9,
                        exRecord 3 "a/ad" (some "Ada") 7])
        [exRecord 1 "a/p1" (some "Python") 5,
         exRecord 2 "a/p2" (some "Python") 9,
         exRecord 3 "a/ad" (some "Ada") 7]).map (·.1) = ["Ada", "Python"] := by
  refine ⟨?_, ?_, ?_, pairwise_sortLex, by decide, by decide⟩
  · intro stats
    unfold browseByLanguage
    rw [List.pairwise_map]
    exact pairwise_sortKeyDesc (fun p => p.2) stats
  · intro stats v
    exact filter_sortKeyDesc (fun p => p.2) v stats
  · intro languages stats repos
    unfold generate_categories_index_page
    rw [List.map_map]
    have hid : ∀ a ∈ sortLex languages,
        ((fun x => x.1) ∘ catIndexEntry stats repos) a = id a := fun a _ => rfl
    rw [List.map_congr_left hid, List.map_id]

set_option maxRecDepth 8000

theorem except_bind_ok {ε α β : Type} (a : α) (f : α → Except ε β) :
    (Except.ok a : Except ε α) >>= f = f a := rfl

theorem except_bind_err {ε α β : Type} (e : ε) (f : α → Except ε β) :
    (Except.error e : Except ε α) >>= f = .error e := rfl

theorem except_map_ok {ε α β : Type} (a : α) (f : α → β) :
    f <$> (Except.ok a : Except ε α) = .ok (f a) := rfl

theorem except_map_err {ε α β : Type} (e : ε) (f : α → β) :
    f <$> (Except.error e : Except ε α) = .error e := rfl

/-- C10: the index-page and category-page repo cards render at most the
first four topics in original order (the card block depends only on
`topics[:4]`), the detail page renders the full topic list (a fifth topic
changes it), and an empty topic list produces no block at all; the page
builders bind exactly these blocks. -/
theorem c10_topics_blocks :
    (∀ topics : List String,
      topicsBlockCard topics = topicsBlockCard (topics.take 4)) ∧
    topicsBlockCard [] = "" ∧
    topicsBlockDetail [] = "" ∧
    topicsBlockCard ["a", "b", "c", "d", "e"] =
      topicsBlockCard ["a", "b", "c", "d"] ∧
    topicsBlockDetail ["a", "b", "c", "d", "e"] ≠
      topicsBlockDetail ["a", "b", "c", "d"] ∧
    topicsBlockCard ["b", "a", "c", "d", "e"] =
      "<div class=\"topics\"><span class=\"topic\">b</span><span class=\"topic\">a</span><span class=\"topic\">c</span><span class=\"topic\">d</span></div>" ∧
    (∀ r : Record, ∀ card, indexRepoCard r = .ok card →
      card.topicsHtml = topicsBlockCard (r.topics.getD [])) ∧
    (∀ repo : Record, ∀ all_repos page,
      generate_repo_page repo all_repos = .ok page →
      page.topicsHtml = topicsBlockDetail (repo.topics.getD [])) := by
  refine ⟨?_, rfl, rfl, by decide, by decide, by decide, ?_, ?_⟩
  · intro topics
    unfold topicsBlockCard
    cases topics with
    | nil => rfl
    | cons t ts =>
      simp [List.take_take]
  · intro r card h
    unfold indexRepoCard at h
    cases hfn : r.full_name with
    | none =>
      rw [hfn] at h
      simp only [pyIndex, except_bind_err] at h
      exact Except.noConfusion h
    | some fn =>
      rw [hfn] at h
      simp only [pyIndex, except_bind_ok, except_map_ok, pure,
        Except.pure, Except.ok.injEq] at h
      rw [← h]
  · intro repo all_repos page h
    unfold generate_repo_page at h
    cases hfn : repo.full_name with
    | none =>
      rw [hfn] at h
      simp only [pyIndex, except_bind_err] at h
      exact Except.noConfusion h
    | some fn =>
      rw [hfn] at h
      cases hsim : similar_repos repo all_repos with
      | error e =>
        rw [hsim] at h
        simp only [pyIndex, except_bind_ok, except_bind_err] at h
        exact Except.noConfusion h
      | ok sims =>
        rw [hsim] at h
        cases hname : repo.name with
        | none =>
          rw [hname] at h
          simp only [pyIndex, except_bind_ok, except_bind_err] at h
          exact Except.noConfusion h
        | some nm =>
          rw [hname] at h
          cases howner : repo.owner with
          | none =>
            rw [howner] at h
            simp only [pyIndex, except_bind_ok, except_bind_err] at h
            exact Except.noConfusion h
          | some ow =>
            rw [howner] at h
            cases hurl : repo.html_url with
            | none =>
              rw [hurl] at h
              simp only [pyIndex, except_bind_ok, except_bind_err] at h
              exact Except.noConfusion h
            | some u =>
              rw [hurl] at h
              simp only [pyIndex, except_bind_ok] at h
              cases hsc : similarCards (sims.take 4) with
              | error e =>
                rw [hsc] at h
                simp only [except_bind_err, except_map_err] at h
                exact Except.noConfusion h
              | ok cards =>
                rw [hsc] at h
                simp only [except_bind_ok, except_map_ok, pure,
                  Except.pure, Except.ok.injEq] at h
                rw [← h]
